import Mathlib

/-!
Verification of the Korean particle allomorph resolution engine of
smartformat-korean.

Shallow embedding conventions:
* A character is its Unicode code point, a `Nat`; a word or a particle form
  is a `List Nat` of code points.  `str` converts a Lean string literal.
* Python string values that can also be `None` become `Option` values.
* Python functions that can raise become `Option`- or `Except`-valued; a
  caught exception is handled at the catching site, as in the source.
* The repository snapshot mixes historical revisions: src/hangul.py is an
  early revision whose absent-coda sentinel is `None`, while
  src/smartformat_korean/particles.py and src/test.py belong to the later
  revision in which the absent coda is the empty string and `split_phonemes`
  takes onset/nucleus/coda keywords.  Where the later revision's code is not
  in src, definitions are modelled from the spec and say so in their doc
  comment.
-/

/-- Converts a string literal to the list of its characters' code points. -/
def str (s : String) : List Nat := s.data.map Char.toNat

/-- Checks whether a code point is an ASCII digit, as the character class
[0-9] of DECIMAL_PATTERN in particles.py does. -/
def isDigitCp (c : Nat) : Bool := 48 ≤ c && c ≤ 57

/-- Checks whether a list starts with the given pattern (Python
str.startswith / an anchored regex literal). -/
def begins (s pat : List Nat) : Bool := s.take pat.length == pat

/-- INITIALS of hangul.py: the 19 onset consonants. -/
def INITIALS : List Nat := str "ㄱㄲㄴㄷㄸㄹㅁㅂㅃㅅㅆㅇㅈㅉㅊㅋㅌㅍㅎ"

/-- VOWELS of hangul.py: the 21 nuclei. -/
def VOWELS : List Nat := str "ㅏㅐㅑㅒㅓㅔㅕㅖㅗㅘㅙㅚㅛㅜㅝㅞㅟㅠㅡㅢㅣ"

/-- FINALS of hangul.py: the absent coda followed by the 27 coda consonants.
hangul.py writes the absent coda as `None`; split_phonemes of the later
revision (see test.py line 20) returns the empty string instead, which the
`Option Nat` value `none` stands for in both cases. -/
def FINALS : List (Option Nat) :=
  none :: (str "ㄱㄲㄳㄴㄵㄶㄷㄹㄺㄻㄼㄽㄾㄿㅀㅁㅂㅄㅅㅆㅇㅈㅊㅋㅌㅍㅎ").map some

/-- NUM_INITIALS, NUM_VOWELS, NUM_FINALS of hangul.py are 19, 21 and 28. -/
theorem phoneme_table_lengths :
    INITIALS.length = 19 ∧ VOWELS.length = 21 ∧ FINALS.length = 28 := by decide

/-- FIRST_HANGUL_OFFSET of hangul.py: the code point of the first Hangul
syllable. -/
def FIRST_HANGUL_OFFSET : Nat := 0xAC00

/-- is_hangul of hangul.py: the letter lies in the Hangul-syllable block. -/
def is_hangul (c : Nat) : Bool :=
  FIRST_HANGUL_OFFSET ≤ c && c ≤ 0xD7A3

/-- split_phonemes of hangul.py on a single letter: fails (ValueError) on a
non-Hangul code point, otherwise returns (initial, vowel, final).  The
initial/vowel/final selection flags of the source are a pure projection
optimization (spec 4.1) and are omitted: the model always returns all three
components. -/
def split_phonemes (c : Nat) : Option (Nat × Nat × Option Nat) :=
  if is_hangul c then
    let offset := c - FIRST_HANGUL_OFFSET
    some (INITIALS.getD (offset / (21 * 28)) 0,
          VOWELS.getD (offset / 28 % 21) 0,
          FINALS.getD (offset % 28) none)
  else none

/-- join_phonemes of hangul.py on three phonemes: looks each component up in
its table (list.index, ValueError when absent, hence `Option`) and rebuilds
the syllable code point. -/
def join_phonemes (initial vowel : Nat) (final : Option Nat) : Option Nat :=
  match INITIALS.indexOf? initial, VOWELS.indexOf? vowel,
        FINALS.indexOf? final with
  | some i, some v, some f =>
      some (FIRST_HANGUL_OFFSET + (i * 21 + v) * 28 + f)
  | _, _, _ => none

theorem initials_index_round : ∀ i : Fin 19,
    INITIALS.indexOf? (INITIALS.getD i.val 0) = some i.val := by decide

theorem vowels_index_round : ∀ i : Fin 21,
    VOWELS.indexOf? (VOWELS.getD i.val 0) = some i.val := by decide

theorem finals_index_round : ∀ i : Fin 28,
    FINALS.indexOf? (FINALS.getD i.val none) = some i.val := by decide

theorem join_of_split_components (off : Nat) (hoff : off < 11172) :
    join_phonemes (INITIALS.getD (off / (21 * 28)) 0)
      (VOWELS.getD (off / 28 % 21) 0) (FINALS.getD (off % 28) none)
      = some (FIRST_HANGUL_OFFSET + off) := by
  have hi : off / (21 * 28) < 19 := by omega
  have hv : off / 28 % 21 < 21 := Nat.mod_lt _ (by norm_num)
  have hf : off % 28 < 28 := Nat.mod_lt _ (by norm_num)
  have e1 := initials_index_round ⟨off / (21 * 28), hi⟩
  have e2 := vowels_index_round ⟨off / 28 % 21, hv⟩
  have e3 := finals_index_round ⟨off % 28, hf⟩
  simp only [join_phonemes, e1, e2, e3, Option.some.injEq]
  have d1 : 28 * (off / 28) + off % 28 = off := Nat.div_add_mod off 28
  have d2 : 21 * (off / 28 / 21) + off / 28 % 21 = off / 28 :=
    Nat.div_add_mod (off / 28) 21
  have d3 : off / 28 / 21 = off / (28 * 21) := Nat.div_div_eq_div_mul _ _ _
  have d4 : off / (28 * 21) = off / (21 * 28) := by ring_nf
  omega

/-- C2: for every Hangul syllable code point c in U+AC00..U+D7A3, composing
the three phonemes obtained by decomposing c yields c back:
join_phonemes (split_phonemes c) = c. -/
theorem split_join_round_trip (c : Nat)
    (h1 : 0xAC00 ≤ c) (h2 : c ≤ 0xD7A3) :
    ∃ i v f, split_phonemes c = some (i, v, f) ∧
      join_phonemes i v f = some c := by
  have hF : FIRST_HANGUL_OFFSET = 0xAC00 := rfl
  have hh : is_hangul c = true := by
    simp [is_hangul, hF]; omega
  refine ⟨INITIALS.getD ((c - FIRST_HANGUL_OFFSET) / (21 * 28)) 0,
          VOWELS.getD ((c - FIRST_HANGUL_OFFSET) / 28 % 21) 0,
          FINALS.getD ((c - FIRST_HANGUL_OFFSET) % 28) none, ?_, ?_⟩
  · simp [split_phonemes, hh]
  · have hj := join_of_split_components (c - FIRST_HANGUL_OFFSET) (by omega)
    rw [hj]
    have : FIRST_HANGUL_OFFSET + (c - FIRST_HANGUL_OFFSET) = c := by omega
    rw [this]

/-- Witness for C2 at the concrete syllable 피 (U+D53C). -/
theorem split_join_round_trip_witness :
    ∃ i v f, split_phonemes 0xD53C = some (i, v, f) ∧
      join_phonemes i v f = some 0xD53C :=
  split_join_round_trip 0xD53C (by decide) (by decide)

/-- pick_coda of particles.py: the coda component of a Hangul letter, or
`none` when the letter is not Hangul (split_phonemes raises ValueError and
pick_coda catches it).  The value for a Hangul letter is the coda string of
the later hangul revision that particles.py calls with onset/nucleus/coda
keywords; that revision is not in src, so the Hangul case is
Modelled from the spec: "decompose that syllable and return its coda
component directly (empty string = no coda = vowel-final; non-empty =
consonant-final)" (spec 4.2).  `Coda` below keeps all three states:
`none` = Python None (undetermined), `some none` = empty string (vowel
final), `some (some j)` = the coda consonant j. -/
abbrev Coda : Type := Option (Option Nat)

def pick_coda (c : Nat) : Coda :=
  match split_phonemes c with
  | some (_, _, f) => some f
  | none => none

/-- DIGITS of particles.py: the spoken digit names 0..9. -/
def DIGITS : List Nat := str "영일이삼사오육칠팔구"

/-- DIGIT_CODAS of particles.py: the coda of each spoken digit name. -/
def DIGIT_CODAS : List Coda := DIGITS.map pick_coda

/-- EXPS of particles.py: the magnitude names of the Korean numeral reading,
keyed by decimal exponent. -/
def EXPS : List (Nat × List Nat) :=
  [(1, str "십"), (2, str "백"), (3, str "천"), (4, str "만"),
   (8, str "억"), (12, str "조"), (16, str "경"), (20, str "해"),
   (24, str "자"), (28, str "양"), (32, str "구"), (36, str "간"),
   (40, str "정"), (44, str "재"), (48, str "극"), (52, str "항하사"),
   (56, str "아승기"), (60, str "나유타"), (64, str "불가사의"),
   (68, str "무량대수"), (72, str "겁"), (76, str "업")]

/-- EXP_CODAS of particles.py: the coda of the last letter of each magnitude
name, plus the first unreadable exponent (76 + 4 = 80) mapped to None. -/
def EXP_CODAS : List (Nat × Coda) :=
  EXPS.map (fun p => (p.1, pick_coda (p.2.getLastD 0))) ++ [(80, none)]

/-- EXP_INDICES of particles.py: the sorted exponent keys, with the first
unreadable exponent appended. -/
def EXP_INDICES : List Nat := EXPS.map (fun p => p.1) ++ [80]

/-- Decimal-string splitting at the first '.' (code point 46), mirroring how
DECIMAL_PATTERN [0-9]+(\.[0-9]+)?$ and the Decimal constructor see the
integer and fractional parts.  The second component is `none` when the
string has no dot. -/
def splitDot : List Nat → List Nat × Option (List Nat)
  | [] => ([], none)
  | c :: rest =>
      if c = 46 then ([], some rest)
      else
        let p := splitDot rest
        (c :: p.1, p.2)

/-- Checks a nonempty all-digit run. -/
def digitsRun (l : List Nat) : Bool := !l.isEmpty && l.all isDigitCp

/-- Membership in the language of DECIMAL_PATTERN: [0-9]+(\.[0-9]+)?. -/
def inDecimalLang (s : List Nat) : Bool :=
  match splitDot s with
  | (a, none) => digitsRun a
  | (a, some b) => digitsRun a && digitsRun b

/-- The part of the word a match of DECIMAL_PATTERN can end at: Python's $
(without re.MULTILINE) matches at the end of the string or just before a
newline that is the string's last character, and the match group itself
never contains that newline, so matching happens against the word with one
trailing newline removed. -/
def decimalTarget (w : List Nat) : List Nat :=
  if w.getLast? = some 10 then w.dropLast else w

/-- DECIMAL_PATTERN.search of particles.py: the pattern is anchored at the
end (the $ also matching just before a trailing newline), and re.search
picks the leftmost start position, so the match group is the longest
suffix of the $-target that lies in the pattern's language. -/
def decimal_search (w : List Nat) : Option (List Nat) :=
  (((List.range ((decimalTarget w).length + 1)).find?
      (fun i => inDecimalLang ((decimalTarget w).drop i)))).map
    (fun i => (decimalTarget w).drop i)

/-- Significand digits of the Python Decimal constructor: leading zeros are
dropped and a single zero is kept when all digits are zero. -/
def significand (l : List Nat) : List Nat :=
  match l.dropWhile (fun d => d = 0) with
  | [] => [0]
  | t => t

/-- Decimal(s).as_tuple() of the Python decimal library, restricted to the
strings DECIMAL_PATTERN can produce (the only callers): returns the
significant digit values and the length of the fractional part (Python's
exponent is its negation); `none` models InvalidOperation on any other
string. -/
def decimalAsTuple (s : List Nat) : Option (List Nat × Nat) :=
  match splitDot s with
  | (a, none) =>
      if digitsRun a then some (significand (a.map (fun c => c - 48)), 0)
      else none
  | (a, some b) =>
      if digitsRun a && digitsRun b then
        some (significand ((a ++ b).map (fun c => c - 48)), b.length)
      else none

/-- Decimal.normalize().as_tuple() on an integer-valued tuple: trailing
zeros are removed (keeping at least one digit) and counted into the
exponent. -/
def decimalNormalize (digits : List Nat) : List Nat × Nat :=
  let z := ((digits.reverse).takeWhile (fun d => d = 0)).length
  let k := min z (digits.length - 1)
  (digits.take (digits.length - k), k)

/-- bisect_right on the sorted distinct list EXP_INDICES: the number of
entries at most x. -/
def bisectRight (l : List Nat) (x : Nat) : Nat := l.countP (fun e => e ≤ x)

/-- pick_coda_from_decimal of particles.py: the coda of the spoken Korean
reading of a decimal string; `none` models an uncaught error (none can
occur on a DECIMAL_PATTERN match, as proved below). -/
def pick_coda_from_decimal (s : List Nat) : Option Coda :=
  match decimalAsTuple s with
  | none => none
  | some (digits, fracLen) =>
    if 0 < fracLen then DIGIT_CODAS[digits.getLastD 0]?
    else
      let n := decimalNormalize digits
      let idx := bisectRight EXP_INDICES n.2
      if idx = 0 then DIGIT_CODAS[n.1.getLastD 0]?
      else
        match EXP_INDICES[idx - 1]? with
        | none => none
        | some k => (EXP_CODAS.find? (fun p => p.1 == k)).map (fun p => p.2)

/-- Code-point intervals of the Unicode character database (category data
external to the repository) whose general category matches
INSIGNIFICANT_UNICODE_CATEGORY_PATTERN, ^([PZ].|Sk)$: all punctuation (P.),
separator (Z.) and modifier-symbol (Sk) characters. -/
def INSIGNIFICANT_RANGES : List (Nat × Nat) :=
  [(0x20, 0x23), (0x25, 0x2a), (0x2c, 0x2f), (0x3a, 0x3b),
   (0x3f, 0x40), (0x5b, 0x60), (0x7b, 0x7b), (0x7d, 0x7d),
   (0xa0, 0xa1), (0xa7, 0xa8), (0xab, 0xab), (0xaf, 0xaf),
   (0xb4, 0xb4), (0xb6, 0xb8), (0xbb, 0xbb), (0xbf, 0xbf),
   (0x2c2, 0x2c5), (0x2d2, 0x2df), (0x2e5, 0x2eb), (0x2ed, 0x2ed),
   (0x2ef, 0x2ff), (0x375, 0x375), (0x37e, 0x37e), (0x384, 0x385),
   (0x387, 0x387), (0x55a, 0x55f), (0x589, 0x58a), (0x5be, 0x5be),
   (0x5c0, 0x5c0), (0x5c3, 0x5c3), (0x5c6, 0x5c6), (0x5f3, 0x5f4),
   (0x609, 0x60a), (0x60c, 0x60d), (0x61b, 0x61b), (0x61d, 0x61f),
   (0x66a, 0x66d), (0x6d4, 0x6d4), (0x700, 0x70d), (0x7f7, 0x7f9),
   (0x830, 0x83e), (0x85e, 0x85e), (0x888, 0x888), (0x964, 0x965),
   (0x970, 0x970), (0x9fd, 0x9fd), (0xa76, 0xa76), (0xaf0, 0xaf0),
   (0xc77, 0xc77), (0xc84, 0xc84), (0xdf4, 0xdf4), (0xe4f, 0xe4f),
   (0xe5a, 0xe5b), (0xf04, 0xf12), (0xf14, 0xf14), (0xf3a, 0xf3d),
   (0xf85, 0xf85), (0xfd0, 0xfd4), (0xfd9, 0xfda), (0x104a, 0x104f),
   (0x10fb, 0x10fb), (0x1360, 0x1368), (0x1400, 0x1400), (0x166e, 0x166e),
   (0x1680, 0x1680), (0x169b, 0x169c), (0x16eb, 0x16ed), (0x1735, 0x1736),
   (0x17d4, 0x17d6), (0x17d8, 0x17da), (0x1800, 0x180a), (0x1944, 0x1945),
   (0x1a1e, 0x1a1f), (0x1aa0, 0x1aa6), (0x1aa8, 0x1aad), (0x1b5a, 0x1b60),
   (0x1b7d, 0x1b7e), (0x1bfc, 0x1bff), (0x1c3b, 0x1c3f), (0x1c7e, 0x1c7f),
   (0x1cc0, 0x1cc7), (0x1cd3, 0x1cd3), (0x1fbd, 0x1fbd), (0x1fbf, 0x1fc1),
   (0x1fcd, 0x1fcf), (0x1fdd, 0x1fdf), (0x1fed, 0x1fef), (0x1ffd, 0x1ffe),
   (0x2000, 0x200a), (0x2010, 0x2029), (0x202f, 0x2043), (0x2045, 0x2051),
   (0x2053, 0x205f), (0x207d, 0x207e), (0x208d, 0x208e), (0x2308, 0x230b),
   (0x2329, 0x232a), (0x2768, 0x2775), (0x27c5, 0x27c6), (0x27e6, 0x27ef),
   (0x2983, 0x2998), (0x29d8, 0x29db), (0x29fc, 0x29fd), (0x2cf9, 0x2cfc),
   (0x2cfe, 0x2cff), (0x2d70, 0x2d70), (0x2e00, 0x2e2e), (0x2e30, 0x2e4f),
   (0x2e52, 0x2e5d), (0x3000, 0x3003), (0x3008, 0x3011), (0x3014, 0x301f),
   (0x3030, 0x3030), (0x303d, 0x303d), (0x309b, 0x309c), (0x30a0, 0x30a0),
   (0x30fb, 0x30fb), (0xa4fe, 0xa4ff), (0xa60d, 0xa60f), (0xa673, 0xa673),
   (0xa67e, 0xa67e), (0xa6f2, 0xa6f7), (0xa700, 0xa716), (0xa720, 0xa721),
   (0xa789, 0xa78a), (0xa874, 0xa877), (0xa8ce, 0xa8cf), (0xa8f8, 0xa8fa),
   (0xa8fc, 0xa8fc), (0xa92e, 0xa92f), (0xa95f, 0xa95f), (0xa9c1, 0xa9cd),
   (0xa9de, 0xa9df), (0xaa5c, 0xaa5f), (0xaade, 0xaadf), (0xaaf0, 0xaaf1),
   (0xab5b, 0xab5b), (0xab6a, 0xab6b), (0xabeb, 0xabeb), (0xfbb2, 0xfbc2),
   (0xfd3e, 0xfd3f), (0xfe10, 0xfe19), (0xfe30, 0xfe52), (0xfe54, 0xfe61),
   (0xfe63, 0xfe63), (0xfe68, 0xfe68), (0xfe6a, 0xfe6b), (0xff01, 0xff03),
   (0xff05, 0xff0a), (0xff0c, 0xff0f), (0xff1a, 0xff1b), (0xff1f, 0xff20),
   (0xff3b, 0xff40), (0xff5b, 0xff5b), (0xff5d, 0xff5d), (0xff5f, 0xff65),
   (0xffe3, 0xffe3), (0x10100, 0x10102), (0x1039f, 0x1039f), (0x103d0, 0x103d0),
   (0x1056f, 0x1056f), (0x10857, 0x10857), (0x1091f, 0x1091f), (0x1093f, 0x1093f),
   (0x10a50, 0x10a58), (0x10a7f, 0x10a7f), (0x10af0, 0x10af6), (0x10b39, 0x10b3f),
   (0x10b99, 0x10b9c), (0x10ead, 0x10ead), (0x10f55, 0x10f59), (0x10f86, 0x10f89),
   (0x11047, 0x1104d), (0x110bb, 0x110bc), (0x110be, 0x110c1), (0x11140, 0x11143),
   (0x11174, 0x11175), (0x111c5, 0x111c8), (0x111cd, 0x111cd), (0x111db, 0x111db),
   (0x111dd, 0x111df), (0x11238, 0x1123d), (0x112a9, 0x112a9), (0x1144b, 0x1144f),
   (0x1145a, 0x1145b), (0x1145d, 0x1145d), (0x114c6, 0x114c6), (0x115c1, 0x115d7),
   (0x11641, 0x11643), (0x11660, 0x1166c), (0x116b9, 0x116b9), (0x1173c, 0x1173e),
   (0x1183b, 0x1183b), (0x11944, 0x11946), (0x119e2, 0x119e2), (0x11a3f, 0x11a46),
   (0x11a9a, 0x11a9c), (0x11a9e, 0x11aa2), (0x11c41, 0x11c45), (0x11c70, 0x11c71),
   (0x11ef7, 0x11ef8), (0x11fff, 0x11fff), (0x12470, 0x12474), (0x12ff1, 0x12ff2),
   (0x16a6e, 0x16a6f), (0x16af5, 0x16af5), (0x16b37, 0x16b3b), (0x16b44, 0x16b44),
   (0x16e97, 0x16e9a), (0x16fe2, 0x16fe2), (0x1bc9f, 0x1bc9f), (0x1da87, 0x1da8b),
   (0x1e95e, 0x1e95f), (0x1f3fb, 0x1f3ff)]

/-- unicodedata.category membership test of
INSIGNIFICANT_UNICODE_CATEGORY_PATTERN in particles.py, ^([PZ].|Sk)$:
punctuation, separator, or modifier-symbol characters. -/
def insignificantCategory (c : Nat) : Bool :=
  INSIGNIFICANT_RANGES.any (fun p => p.1 ≤ c && c ≤ p.2)

/-- INSIGNIFICANT_PARENTHESIS_PATTERN.search of particles.py on word[:y+1]
where word[y] is a closing parenthesis: regex \(.*?\)$ matches from the
leftmost opening parenthesis whose dot-run up to position y crosses no
newline; returns that start position. -/
def parenMatchStart (w : List Nat) (y : Nat) : Option Nat :=
  (List.range y).find?
    (fun p => w.getD p 0 == 40 && ((w.take y).drop (p + 1)).all (· ≠ 10))

/-- Loop of pick_significant in particles.py.  The first argument mirrors
Python's x at the while-condition check; the extra fuel argument only makes
the recursion structural, and the loop consumes at most one fuel per
iteration because x strictly decreases, so fuel = initial x is enough (when
both run out the result is 0 in either case, like the source loop falling
through to x = 0). -/
def pickSignificantLoop (w : List Nat) : Nat → Nat → Nat
  | 0, _ => 0
  | _ + 1, 0 => 0
  | fuel + 1, y + 1 =>
      let l := w.getD y 0
      if l = 41 then
        match parenMatchStart w y with
        | some p => pickSignificantLoop w fuel p
        | none => pickSignificantLoop w fuel y
      else if insignificantCategory l then pickSignificantLoop w fuel y
      else y

/-- pick_significant of particles.py: drops insignificant trailing letters
(a complete trailing parenthetical, punctuation/separator characters) and
returns word[:x+1] for the final loop position x. -/
def pick_significant (w : List Nat) : List Nat :=
  match w with
  | [] => []
  | _ => w.take (pickSignificantLoop w w.length w.length + 1)

/-- Particle of particles.py: a simple two-form particle. -/
structure Particle where
  form1 : List Nat
  form2 : List Nat
deriving DecidableEq

/-- Bracketing used by the tolerant-form generators: (s). -/
def paren (s : List Nat) : List Nat := 40 :: s ++ [41]

/-- combine_tolerances of particles.py (the revision without the
form1 = form2 short cut): all reasonable tolerant particle forms. -/
def combine_tolerances (form1 form2 : List Nat) : List (List Nat) :=
  if form1 = [] ∨ form2 = [] then
    [paren (if form1 ≠ [] then form1 else form2)]
  else if form1.length ≠ form2.length then
    let longer := if form1.length > form2.length then form1 else form2
    let shorter := if form1.length > form2.length then form2 else form1
    if begins longer.reverse shorter.reverse then
      [paren (longer.take (longer.length - shorter.length)) ++ shorter]
    else
      [form1 ++ paren form2, paren form1 ++ form2,
       form2 ++ paren form1, paren form2 ++ form1]
  else
    [form1 ++ paren form2, paren form1 ++ form2,
     form2 ++ paren form1, paren form2 ++ form1]

/-- Particle.tolerance of particles.py: the representative tolerant form,
next(self.tolerances()). -/
def Particle.tolerance (p : Particle) : List Nat :=
  (combine_tolerances p.form1 p.form2).headD []

/-- Particle.allomorph of particles.py: undetermined coda gives the tolerant
form, a non-empty coda gives form1, the empty coda gives form2. -/
def Particle.allomorph (p : Particle) (coda : Coda) : List Nat :=
  match coda with
  | none => p.tolerance
  | some (some _) => p.form1
  | some none => p.form2

deriving instance DecidableEq for Except

/-- Coda inference shared by Particle.__call__ of particles.py (lines
169-174): take the significant part of the word, read a trailing decimal
through pick_coda_from_decimal if there is one, otherwise the coda of the
last letter, or None for the empty word.  An `Except.error` marks an
uncaught Python exception escaping to the caller. -/
def inferCoda (w : List Nat) : Except Unit Coda :=
  let w' := pick_significant w
  match decimal_search w' with
  | some ds =>
      match pick_coda_from_decimal ds with
      | some c => Except.ok c
      | none => Except.error ()
  | none =>
      Except.ok (match w'.getLast? with
                 | some l => pick_coda l
                 | none => none)

/-- Particle.__call__ of particles.py: infer the coda of the word and select
the allomorph. -/
def Particle.call (p : Particle) (w : List Nat) : Except Unit (List Nat) :=
  (inferCoda w).map p.allomorph

/-- generate_tolerances of tolerance.py: like combine_tolerances but with the
form1 = form2 short cut that yields nothing. -/
def generate_tolerances (form1 form2 : List Nat) : List (List Nat) :=
  if form1 = form2 then []
  else combine_tolerances form1 form2

/-- C7: for every pair of forms with form1 = form2 (an invariant particle),
generate_tolerances yields the empty sequence. -/
theorem generate_tolerances_invariant_empty (form1 form2 : List Nat)
    (h : form1 = form2) : generate_tolerances form1 form2 = [] := by
  simp [generate_tolerances, h]

/-- Witness for C7 at the invariant particle 도. -/
theorem generate_tolerances_invariant_empty_witness :
    generate_tolerances (str "도") (str "도") = [] :=
  generate_tolerances_invariant_empty (str "도") (str "도") rfl

theorem getLast?_append_right {α : Type} (a b : List α) (hb : b ≠ []) :
    (a ++ b).getLast? = b.getLast? := by
  rw [List.getLast?_append]
  match hx : b.getLast? with
  | some x => rfl
  | none => exact absurd (List.getLast?_eq_none_iff.mp hx) hb

theorem getLast?_drop {α : Type} (l : List α) (i : Nat)
    (h : l.drop i ≠ []) : (l.drop i).getLast? = l.getLast? := by
  conv_rhs => rw [← List.take_append_drop i l]
  exact (getLast?_append_right _ _ h).symm

theorem getLast?_dropWhile {α : Type} (p : α → Bool) (l : List α)
    (h : l.dropWhile p ≠ []) : (l.dropWhile p).getLast? = l.getLast? := by
  induction l with
  | nil => simp at h
  | cons x xs ih =>
      by_cases hp : p x
      · have hd : (x :: xs).dropWhile p = xs.dropWhile p := by
          simp [List.dropWhile, hp]
        rw [hd] at h ⊢
        cases xs with
        | nil => simp [List.dropWhile] at h
        | cons y ys => rw [ih h, List.getLast?_cons_cons]
      · simp [List.dropWhile, hp]

theorem significand_ne_nil (l : List Nat) : significand l ≠ [] := by
  rcases hd : l.dropWhile (fun d => d = 0) with _ | ⟨t, ts⟩ <;>
    simp [significand, hd]

theorem significand_getLast? (l : List Nat) (h : l ≠ []) :
    (significand l).getLast? = l.getLast? := by
  rcases hd : l.dropWhile (fun d => d = 0) with _ | ⟨t, ts⟩
  · have hall : ∀ x ∈ l, x = 0 := by
      have h0 := List.dropWhile_eq_nil_iff.mp hd
      intro x hx; simpa using h0 x hx
    rcases hl : l.getLast? with _ | v
    · exact absurd (List.getLast?_eq_none_iff.mp hl) h
    · have hv : v ∈ l := List.mem_of_mem_getLast? hl
      simp [significand, hd, hall v hv, hl]
  · have hs : significand l = l.dropWhile (fun d => d = 0) := by
      simp [significand, hd]
    rw [hs]
    exact getLast?_dropWhile _ _ (by rw [hd]; simp)

theorem significand_mem_le (l : List Nat) (hb : ∀ x ∈ l, x ≤ 9) :
    ∀ x ∈ significand l, x ≤ 9 := by
  intro x hx
  rcases hd : l.dropWhile (fun d => d = 0) with _ | ⟨t, ts⟩
  · simp [significand, hd] at hx; omega
  · simp only [significand, hd] at hx
    exact hb x ((List.dropWhile_sublist (fun d => decide (d = 0))).mem (hd ▸ hx))

theorem splitDot_of_append (a b : List Nat) (ha : ∀ c ∈ a, c ≠ 46) :
    splitDot (a ++ 46 :: b) = (a, some b) := by
  induction a with
  | nil => simp [splitDot]
  | cons x xs ih =>
      have hx : x ≠ 46 := ha x (by simp)
      have hrec := ih (fun c hc => ha c (by simp [hc]))
      simp [List.cons_append, splitDot, hx, hrec]

theorem splitDot_recon (s : List Nat) :
    s = (splitDot s).1 ++
      (match (splitDot s).2 with | some b => 46 :: b | none => []) := by
  induction s with
  | nil => simp [splitDot]
  | cons x xs ih =>
      by_cases hx : x = 46
      · subst hx; simp [splitDot]
      · have hsd : splitDot (x :: xs) = (x :: (splitDot xs).1, (splitDot xs).2) := by
          simp [splitDot, hx]
        rw [hsd]
        simp only [List.cons_append]
        exact congrArg (List.cons x) ih

theorem DIGIT_CODAS_length : DIGIT_CODAS.length = 10 := by decide

/-- C8: for every decimal number with a fractional part, the inferred coda
is the coda of the spoken name of the number's last significant digit,
looked up in the fixed digit-name table 영일이삼사오육칠팔구
(DIGIT_CODAS). -/
theorem decimal_coda_is_last_digit_name (a b : List Nat)
    (ha : a ≠ []) (hb : b ≠ []) (hda : ∀ c ∈ a, isDigitCp c = true)
    (hdb : ∀ c ∈ b, isDigitCp c = true) :
    ∃ d, b.getLast? = some d ∧
      pick_coda_from_decimal (a ++ 46 :: b) = DIGIT_CODAS[d - 48]? ∧
      (DIGIT_CODAS[d - 48]?).isSome := by
  rcases hbl : b.getLast? with _ | d
  · exact absurd (List.getLast?_eq_none_iff.mp hbl) hb
  have hdmem : d ∈ b := List.mem_of_mem_getLast? hbl
  have hdd : isDigitCp d = true := hdb d hdmem
  have hdlo : 48 ≤ d ∧ d ≤ 57 := by simpa [isDigitCp] using hdd
  have hsd : splitDot (a ++ 46 :: b) = (a, some b) := by
    refine splitDot_of_append a b (fun c hc => ?_)
    have := hda c hc
    simp [isDigitCp] at this
    omega
  have haE : a.isEmpty = false := by
    cases a with
    | nil => exact absurd rfl ha
    | cons x xs => rfl
  have hbE : b.isEmpty = false := by
    cases b with
    | nil => exact absurd rfl hb
    | cons x xs => rfl
  have hra : digitsRun a = true := by
    simp [digitsRun, haE, List.all_eq_true]; exact fun c hc => hda c hc
  have hrb : digitsRun b = true := by
    simp [digitsRun, hbE, List.all_eq_true]; exact fun c hc => hdb c hc
  have htuple : decimalAsTuple (a ++ 46 :: b)
      = some (significand ((a ++ b).map (fun c => c - 48)), b.length) := by
    simp [decimalAsTuple, hsd, hra, hrb]
  have hmne : (a ++ b).map (fun c => c - 48) ≠ [] := by
    simp [List.append_eq_nil]
    intro h1; exact absurd h1 ha
  have hmlast : ((a ++ b).map (fun c => c - 48)).getLast? = some (d - 48) := by
    rw [List.getLast?_map, getLast?_append_right a b hb, hbl]
    rfl
  have hsig : (significand ((a ++ b).map (fun c => c - 48))).getLastD 0
      = d - 48 := by
    rw [List.getLastD_eq_getLast?, significand_getLast? _ hmne, hmlast]
    rfl
  have hblen : 0 < b.length := by
    cases b with
    | nil => exact absurd rfl hb
    | cons x xs => simp
  refine ⟨d, rfl, ?_, ?_⟩
  · have hsig3 : (significand (List.map (fun c => c - 48) a
        ++ List.map (fun c => c - 48) b)).getLast?.getD 0 = d - 48 := by
      rw [← List.map_append, ← List.getLastD_eq_getLast?]
      exact hsig
    simp [pick_coda_from_decimal, htuple, hblen, hsig3]
  · have h10 : d - 48 < 10 := by omega
    rw [List.getElem?_eq_getElem (by rw [DIGIT_CODAS_length]; omega)]
    rfl

/-- Witness for C8 at the decimal 3.14: the coda is that of 사, the spoken
name of the digit 4. -/
theorem decimal_coda_is_last_digit_name_witness :
    ∃ d, (str "14").getLast? = some d ∧
      pick_coda_from_decimal (str "3" ++ 46 :: str "14")
        = DIGIT_CODAS[d - 48]? ∧
      (DIGIT_CODAS[d - 48]?).isSome :=
  decimal_coda_is_last_digit_name (str "3") (str "14")
    (by decide) (by decide) (by decide) (by decide)

theorem EXP_INDICES_length : EXP_INDICES.length = 23 := by decide

theorem exp_lookup_total : ∀ k ∈ EXP_INDICES,
    ((EXP_CODAS.find? (fun p => p.1 == k)).map (fun p => p.2)).isSome
      = true := by decide

theorem digitsRun_ne_nil {a : List Nat} (hr : digitsRun a = true) :
    a ≠ [] := by
  cases a with
  | nil => simp [digitsRun] at hr
  | cons x xs => simp

theorem digitsRun_all {a : List Nat} (hr : digitsRun a = true) :
    ∀ c ∈ a, isDigitCp c = true := by
  have h := (Bool.and_eq_true _ _).mp hr
  exact List.all_eq_true.mp h.2

theorem digit_vals_le (a : List Nat) (h : ∀ c ∈ a, isDigitCp c = true) :
    ∀ v ∈ a.map (fun c => c - 48), v ≤ 9 := by
  intro v hv
  rcases List.mem_map.mp hv with ⟨c, hc, rfl⟩
  have := h c hc
  simp [isDigitCp] at this
  omega

theorem getLastD_le_of_bound (l : List Nat) (hne : l ≠ [])
    (hb : ∀ x ∈ l, x ≤ 9) : l.getLastD 0 ≤ 9 := by
  rw [List.getLastD_eq_getLast?]
  rcases hl : l.getLast? with _ | v
  · exact absurd (List.getLast?_eq_none_iff.mp hl) hne
  · exact hb v (List.mem_of_mem_getLast? hl)

theorem DIGIT_CODAS_isSome_of_le (i : Nat) (h : i ≤ 9) :
    (DIGIT_CODAS[i]?).isSome = true := by
  rw [List.getElem?_eq_getElem (by rw [DIGIT_CODAS_length]; omega)]
  rfl

theorem decimalNormalize_ne_nil (digits : List Nat) (h : digits ≠ []) :
    (decimalNormalize digits).1 ≠ [] := by
  have hlen : 0 < digits.length := List.length_pos.mpr h
  simp only [decimalNormalize, ne_eq, List.take_eq_nil_iff]
  push_neg
  constructor
  · omega
  · exact h

theorem decimalNormalize_subset (digits : List Nat) :
    ∀ x ∈ (decimalNormalize digits).1, x ∈ digits := by
  intro x hx
  simp only [decimalNormalize] at hx
  exact (List.take_sublist _ _).mem hx

theorem pick_coda_from_decimal_total (s : List Nat)
    (h : inDecimalLang s = true) : (pick_coda_from_decimal s).isSome = true := by
  unfold inDecimalLang at h
  rcases hsd : splitDot s with ⟨a, ob⟩
  rw [hsd] at h
  have hIntBranch : ∀ digits : List Nat, digits ≠ [] →
      (∀ v ∈ digits, v ≤ 9) →
      ((if (0:Nat) < 0 then DIGIT_CODAS[digits.getLastD 0]?
        else
          let n := decimalNormalize digits
          let idx := bisectRight EXP_INDICES n.2
          if idx = 0 then DIGIT_CODAS[n.1.getLastD 0]?
          else
            match EXP_INDICES[idx - 1]? with
            | none => none
            | some k =>
                (EXP_CODAS.find? (fun p => p.1 == k)).map
                  (fun p => p.2)) : Option Coda).isSome = true := by
    intro digits hne hb
    simp only [Nat.lt_irrefl, if_false]
    by_cases hidx : bisectRight EXP_INDICES (decimalNormalize digits).2 = 0
    · simp only [hidx, if_pos rfl]
      refine DIGIT_CODAS_isSome_of_le _ ?_
      refine getLastD_le_of_bound _ (decimalNormalize_ne_nil _ hne) ?_
      exact fun x hx => hb x (decimalNormalize_subset _ x hx)
    · simp only [hidx, if_neg hidx]
      have hle : bisectRight EXP_INDICES (decimalNormalize digits).2
          ≤ 23 := by
        have := List.countP_le_length
          (fun e => decide (e ≤ (decimalNormalize digits).2))
          (l := EXP_INDICES)
        rw [EXP_INDICES_length] at this
        exact this
      have hlt : bisectRight EXP_INDICES (decimalNormalize digits).2 - 1
          < EXP_INDICES.length := by rw [EXP_INDICES_length]; omega
      rw [List.getElem?_eq_getElem hlt]
      have hkmem : EXP_INDICES[bisectRight EXP_INDICES
          (decimalNormalize digits).2 - 1] ∈ EXP_INDICES :=
        List.getElem_mem _
      exact exp_lookup_total _ hkmem
  cases ob with
  | none =>
      have hne := digitsRun_ne_nil h
      have hvals := digit_vals_le a (digitsRun_all h)
      have hsne : significand (a.map (fun c => c - 48)) ≠ [] :=
        significand_ne_nil _
      have hsv := significand_mem_le (a.map (fun c => c - 48)) hvals
      simp only [pick_coda_from_decimal, decimalAsTuple, hsd, h, if_pos h]
      exact hIntBranch _ hsne hsv
  | some b =>
      rcases (Bool.and_eq_true _ _).mp h with ⟨hra, hrb⟩
      have hbne := digitsRun_ne_nil hrb
      have hblen : 0 < b.length := List.length_pos.mpr hbne
      have hvals := digit_vals_le (a ++ b)
        (by
          intro c hc
          rcases List.mem_append.mp hc with hc | hc
          · exact digitsRun_all hra c hc
          · exact digitsRun_all hrb c hc)
      have hsv := significand_mem_le ((a ++ b).map (fun c => c - 48)) hvals
      simp only [pick_coda_from_decimal, decimalAsTuple, hsd, hra, hrb,
        Bool.and_self, if_pos, hblen]
      refine DIGIT_CODAS_isSome_of_le _ ?_
      exact getLastD_le_of_bound _ (significand_ne_nil _) hsv

theorem decimal_search_lang {w ds : List Nat}
    (h : decimal_search w = some ds) : inDecimalLang ds = true := by
  unfold decimal_search at h
  rcases hfind : (List.range ((decimalTarget w).length + 1)).find?
      (fun i => inDecimalLang ((decimalTarget w).drop i)) with _ | i
  · rw [hfind] at h; simp at h
  · rw [hfind] at h
    have hp := List.find?_some hfind
    simp only [Option.map_some'] at h
    cases h
    simpa using hp

/-- C6: for every input word (empty, non-Hangul, punctuation-only, malformed
parentheses included), resolving a simple particle never raises: coda
inference always succeeds, the call returns the selected allomorph, and the
undetermined-coda case degrades to the particle's tolerant bracketed
form. -/
theorem particle_call_never_raises (p : Particle) (w : List Nat) :
    ∃ c, inferCoda w = Except.ok c ∧
      Particle.call p w = Except.ok (p.allomorph c) ∧
      (c = none → Particle.call p w = Except.ok p.tolerance) := by
  have hok : ∃ c, inferCoda w = Except.ok c := by
    rcases hds : decimal_search (pick_significant w) with _ | ds
    · exact ⟨(match (pick_significant w).getLast? with
              | some l => pick_coda l
              | none => none), by simp [inferCoda, hds]⟩
    · have hsome := pick_coda_from_decimal_total ds (decimal_search_lang hds)
      rcases hpc : pick_coda_from_decimal ds with _ | c
      · rw [hpc] at hsome; simp at hsome
      · exact ⟨c, by simp [inferCoda, hds, hpc]⟩
  rcases hok with ⟨c, hc⟩
  refine ⟨c, hc, ?_, ?_⟩
  · simp [Particle.call, hc, Except.map]
  · intro hnone
    subst hnone
    simp [Particle.call, hc, Particle.allomorph, Except.map]

/-- Witness for C6 at the punctuation-only word ?_? whose coda is
undetermined, with the object-marker particle. -/
theorem particle_call_never_raises_witness :
    ∃ c, inferCoda (str "?_?") = Except.ok c ∧
      Particle.call ⟨str "을", str "를"⟩ (str "?_?")
        = Except.ok (Particle.allomorph ⟨str "을", str "를"⟩ c) ∧
      (c = none → Particle.call ⟨str "을", str "를"⟩ (str "?_?")
        = Except.ok (Particle.tolerance ⟨str "을", str "를"⟩)) :=
  particle_call_never_raises ⟨str "을", str "를"⟩ (str "?_?")

theorem inDecimalLang_last (s : List Nat) (h : inDecimalLang s = true) :
    ∃ d, s.getLast? = some d ∧ isDigitCp d = true := by
  have hrecon := splitDot_recon s
  unfold inDecimalLang at h
  rcases hsd : splitDot s with ⟨a, ob⟩
  rw [hsd] at h hrecon
  dsimp only at h hrecon
  cases ob with
  | none =>
      dsimp only at h hrecon
      simp only [List.append_nil] at hrecon
      have hne := digitsRun_ne_nil h
      rcases hl : a.getLast? with _ | d
      · exact absurd (List.getLast?_eq_none_iff.mp hl) hne
      · refine ⟨d, ?_, digitsRun_all h d (List.mem_of_mem_getLast? hl)⟩
        rw [hrecon]; exact hl
  | some b =>
      dsimp only at h hrecon
      rcases (Bool.and_eq_true _ _).mp h with ⟨hra, hrb⟩
      have hbne := digitsRun_ne_nil hrb
      rcases hl : b.getLast? with _ | d
      · exact absurd (List.getLast?_eq_none_iff.mp hl) hbne
      · refine ⟨d, ?_, digitsRun_all hrb d (List.mem_of_mem_getLast? hl)⟩
        rw [hrecon, getLast?_append_right _ _ (by simp)]
        rw [show (46 :: b : List Nat) = [46] ++ b from rfl,
          getLast?_append_right _ _ hbne]
        exact hl

theorem decimal_search_eq_none (w : List Nat)
    (h : ∀ d, (decimalTarget w).getLast? = some d → isDigitCp d = false) :
    decimal_search w = none := by
  unfold decimal_search
  rw [List.find?_eq_none.mpr]
  · rfl
  · intro i _
    simp only [Bool.not_eq_true]
    by_contra hcon
    have hLang : inDecimalLang ((decimalTarget w).drop i) = true := by
      cases hx : inDecimalLang ((decimalTarget w).drop i)
      · exact absurd hx hcon
      · rfl
    rcases inDecimalLang_last _ hLang with ⟨d, hlast, hdig⟩
    have hdne : (decimalTarget w).drop i ≠ [] := by
      intro he; rw [he] at hLang; simp [inDecimalLang, splitDot, digitsRun]
        at hLang
    rw [getLast?_drop _ _ hdne] at hlast
    rw [h d hlast] at hdig
    exact Bool.false_ne_true hdig

theorem split_phonemes_hangul {l : Nat} {t : Nat × Nat × Option Nat}
    (h : split_phonemes l = some t) : is_hangul l = true := by
  by_cases hH : is_hangul l
  · exact hH
  · rw [split_phonemes, if_neg hH] at h; cases h

theorem hangul_not_digit {l : Nat} (h : is_hangul l = true) :
    isDigitCp l = false := by
  have hF : FIRST_HANGUL_OFFSET = 0xAC00 := rfl
  simp [is_hangul, hF] at h
  simp [isDigitCp]
  omega

theorem decimalTarget_of_last_ne {v : List Nat} {l : Nat}
    (hl : v.getLast? = some l) (hne : l ≠ 10) : decimalTarget v = v := by
  unfold decimalTarget
  rw [hl]
  simp [hne]

theorem hangul_ne_newline {l : Nat} (h : is_hangul l = true) : l ≠ 10 := by
  have hF : FIRST_HANGUL_OFFSET = 0xAC00 := rfl
  simp [is_hangul, hF] at h
  omega

/-- Counterexample to C1's tolerant arm as stated: the word 123 followed by
a newline has a last significant character (the newline, category Cc) that
is neither Hangul nor a digit, yet Python's $ matches the digit run just
before the trailing newline, the coda is that of 삼, and the object marker
resolves to form1 을 instead of the tolerant 을(를). -/
theorem coda_tolerant_arm_newline_counterexample :
    (pick_significant (str "123\n")).getLast? = some 10 ∧
    split_phonemes 10 = none ∧ isDigitCp 10 = false ∧
    Particle.call ⟨str "을", str "를"⟩ (str "123\n")
      = Except.ok (str "을") ∧
    Particle.call ⟨str "을", str "를"⟩ (str "123\n")
      ≠ Except.ok (Particle.tolerance ⟨str "을", str "를"⟩) := by
  refine ⟨by decide, by decide, by decide, by decide, by decide⟩

/-- C1 (amended): for every word and every simple two-form particle, the
allomorph is selected from the coda of the word's last significant
character: a Hangul syllable bearing a coda selects form1, a Hangul
syllable without coda selects form2, and an undeterminable ending (empty
word, or a last significant character that is neither Hangul nor a digit
nor the newline terminating a digit run, which Python's $ still reads as a
decimal) selects the particle's tolerant bracketed form. -/
theorem coda_based_selection (p : Particle) (w : List Nat) :
    (∀ l o v j, (pick_significant w).getLast? = some l →
        split_phonemes l = some (o, v, some j) →
        Particle.call p w = Except.ok p.form1) ∧
    (∀ l o v, (pick_significant w).getLast? = some l →
        split_phonemes l = some (o, v, none) →
        Particle.call p w = Except.ok p.form2) ∧
    ((pick_significant w = [] ∨
      ∃ l, (pick_significant w).getLast? = some l ∧
        split_phonemes l = none ∧ isDigitCp l = false ∧
        (l = 10 →
          isDigitCp ((pick_significant w).dropLast.getLastD 0) = false)) →
      Particle.call p w = Except.ok p.tolerance) := by
  have hcall : ∀ c, inferCoda w = Except.ok c →
      Particle.call p w = Except.ok (p.allomorph c) := by
    intro c hc; simp [Particle.call, hc, Except.map]
  refine ⟨?_, ?_, ?_⟩
  · intro l o v j hl hsp
    have hnd := hangul_not_digit (split_phonemes_hangul hsp)
    have htgt := decimalTarget_of_last_ne hl
      (hangul_ne_newline (split_phonemes_hangul hsp))
    have hds : decimal_search (pick_significant w) = none := by
      refine decimal_search_eq_none _ ?_
      rw [htgt]
      intro d hd
      rw [hl] at hd
      cases hd
      exact hnd
    have hcoda : inferCoda w = Except.ok (some (some j)) := by
      simp [inferCoda, hds, hl, pick_coda, hsp]
    rw [hcall _ hcoda]
    rfl
  · intro l o v hl hsp
    have hnd := hangul_not_digit (split_phonemes_hangul hsp)
    have htgt := decimalTarget_of_last_ne hl
      (hangul_ne_newline (split_phonemes_hangul hsp))
    have hds : decimal_search (pick_significant w) = none := by
      refine decimal_search_eq_none _ ?_
      rw [htgt]
      intro d hd
      rw [hl] at hd
      cases hd
      exact hnd
    have hcoda : inferCoda w = Except.ok (some none) := by
      simp [inferCoda, hds, hl, pick_coda, hsp]
    rw [hcall _ hcoda]
    rfl
  · intro hcase
    rcases hcase with hemp | ⟨l, hl, hspn, hnd, hnl⟩
    · have htgt : decimalTarget (pick_significant w) = [] := by
        unfold decimalTarget
        rw [hemp]
        rfl
      have hds : decimal_search (pick_significant w) = none := by
        refine decimal_search_eq_none _ ?_
        rw [htgt]
        intro d hd
        cases hd
      rw [hemp] at hds
      have hcoda : inferCoda w = Except.ok none := by
        simp [inferCoda, hds, hemp]
      rw [hcall _ hcoda]
      rfl
    · have hds : decimal_search (pick_significant w) = none := by
        by_cases hl10 : l = 10
        · subst hl10
          have htgt : decimalTarget (pick_significant w)
              = (pick_significant w).dropLast := by
            unfold decimalTarget
            rw [hl]
            simp
          refine decimal_search_eq_none _ ?_
          rw [htgt]
          intro d hd
          have hgd : ((pick_significant w).dropLast).getLastD 0 = d := by
            rw [List.getLastD_eq_getLast?, hd]
            rfl
          rw [← hgd]
          exact hnl rfl
        · have htgt := decimalTarget_of_last_ne hl hl10
          refine decimal_search_eq_none _ ?_
          rw [htgt]
          intro d hd
          rw [hl] at hd
          cases hd
          exact hnd
      have hcoda : inferCoda w = Except.ok none := by
        simp [inferCoda, hds, hl, pick_coda, hspn]
      rw [hcall _ hcoda]
      rfl

/-- Witness for C1 with the object marker 을/를: 수박 ends in a syllable
with coda ㄱ and selects 을, 사과 ends in a coda-less syllable and selects
를, and Pikachu ends in a non-Hangul non-digit letter and selects the
tolerant form 을(를). -/
theorem coda_based_selection_witness :
    Particle.call ⟨str "을", str "를"⟩ (str "수박")
      = Except.ok (str "을") ∧
    Particle.call ⟨str "을", str "를"⟩ (str "사과")
      = Except.ok (str "를") ∧
    Particle.call ⟨str "을", str "를"⟩ (str "Pikachu")
      = Except.ok (str "을(를)") := by
  refine ⟨?_, ?_, ?_⟩
  · exact (coda_based_selection ⟨str "을", str "를"⟩ (str "수박")).1
      0xBC15 0x3142 0x314F 0x3131 (by decide) (by decide)
  · exact (coda_based_selection ⟨str "을", str "를"⟩ (str "사과")).2.1
      0xACFC 0x3131 0x3158 (by decide) (by decide)
  · exact (coda_based_selection ⟨str "을", str "를"⟩ (str "Pikachu")).2.2
      (Or.inr ⟨117, by decide, by decide, by decide, by decide⟩)

/-- PREFIX_PATTERN match of Euro in particles.py: the requested form must
start with an optional 으 or (으) group followed by 로; the returned suffix
is the form with the group removed, form[max(0, m.end(1)):], keeping the
로 itself.  `none` when the form does not start with 으로, (으)로 or 로. -/
def euro_match_suffix (form : List Nat) : Option (List Nat) :=
  if begins form (str "으로") then some (form.drop 1)
  else if begins form (str "(으)로") then some (form.drop 3)
  else if begins form (str "로") then some form
  else none

/-- Euro.allomorph of particles.py: no result when the form is not of the
으로 family; otherwise the tolerant bracket (으) for an undetermined coda,
으 for a coda other than ㄹ, and the empty short prefix for no coda or the
liquid coda ㄹ, prepended to the matched suffix.  Euro.tolerance is the
tolerance of form1 = 으, form2 = the empty string, namely (으). -/
def Euro_allomorph (coda : Coda) (form : List Nat) : Option (List Nat) :=
  match euro_match_suffix form with
  | none => none
  | some suffix =>
      let pre := match coda with
        | none => Particle.tolerance ⟨str "으", []⟩
        | some (some j) => if j ≠ 0x3139 then str "으" else []
        | some none => []
      some (pre ++ suffix)

/-- Euro.__call__, i.e. Particle.__call__ of particles.py dispatching to
Euro.allomorph: infer the word's coda and combine. -/
def Euro_call (w form : List Nat) : Except Unit (Option (List Nat)) :=
  (inferCoda w).map (fun c => Euro_allomorph c form)

/-- Counterexample to C3's particular: the word 밖 ends with the coda ㄲ,
not the liquid ㄹ, so resolving it with 으로 keeps the long form 으로 and
does not return 로. -/
theorem euro_bak_not_short :
    Euro_call (str "밖") (str "으로") = Except.ok (some (str "으로")) ∧
    Euro_call (str "밖") (str "으로") ≠ Except.ok (some (str "로")) := by
  constructor
  · decide
  · decide

/-- C3 (amended): for any requested form of the 으로 family, a word whose
coda is exactly the liquid ㄹ selects the short form (form2, omitting 으)
even though a coda is present, and any other non-empty coda selects the
long 으-prefixed form; in particular resolving 밖 (coda ㄲ) with 으로
yields 으로, and the ㄹ-final word 칼 yields 로. -/
theorem euro_liquid_elision (form suffix : List Nat)
    (h : euro_match_suffix form = some suffix) :
    Euro_allomorph (some (some 0x3139)) form = some suffix ∧
    (∀ j, j ≠ 0x3139 → Euro_allomorph (some (some j)) form
        = some (str "으" ++ suffix)) ∧
    Euro_call (str "밖") (str "으로") = Except.ok (some (str "으로")) ∧
    Euro_call (str "칼") (str "으로") = Except.ok (some (str "로")) := by
  refine ⟨?_, ?_, by decide, by decide⟩
  · simp [Euro_allomorph, h]
  · intro j hj
    simp [Euro_allomorph, h, hj]

/-- Witness for C3's amended rule at the concrete form 으로: coda ㄹ gives
로, the non-liquid coda ㄱ gives 으로. -/
theorem euro_liquid_elision_witness :
    Euro_allomorph (some (some 0x3139)) (str "으로") = some (str "로") ∧
    Euro_allomorph (some (some 0x3131)) (str "으로")
      = some (str "으" ++ str "로") :=
  ⟨(euro_liquid_elision (str "으로") (str "로") (by decide)).1,
   (euro_liquid_elision (str "으로") (str "로") (by decide)).2.1
     0x3131 (by decide)⟩

/-- C10: for every coda value and every requested form that does not begin
with 로, 으로 or (으)로, Euro.allomorph returns None (no suffix produced)
rather than raising or returning text. -/
theorem euro_allomorph_unhandled (coda : Coda) (form : List Nat)
    (h1 : begins form (str "로") = false)
    (h2 : begins form (str "으로") = false)
    (h3 : begins form (str "(으)로") = false) :
    Euro_allomorph coda form = none := by
  simp [Euro_allomorph, euro_match_suffix, h1, h2, h3]

/-- Witness for C10 at the form 은 and an undetermined coda. -/
theorem euro_allomorph_unhandled_witness :
    Euro_allomorph none (str "은") = none :=
  euro_allomorph_unhandled none (str "은") (by decide) (by decide) (by decide)

/-- I_PATTERN.sub of Ida in particles.py, the non-initial part: removes
every later (이) occurrence, scanning left to right. -/
def remove_paren_i : List Nat → List Nat
  | [] => []
  | 40 :: 0xC774 :: 41 :: rest => remove_paren_i rest
  | c :: rest => c :: remove_paren_i rest

/-- I_PATTERN.sub(u'', form) of Ida in particles.py: ^이|\(이\) removes one
leading 이 (the anchor matches only at the start) and every bracketed (이)
occurrence. -/
def strip_i (form : List Nat) : List Nat :=
  remove_paren_i (if begins form (str "이") then form.drop 1 else form)

/-- Ida.allomorph of particles.py.  The stem is the form with its copula
marker stripped; its first syllable is decomposed (an uncaught ValueError,
modelled as `none`, if the stem is empty or starts with a non-Hangul
letter).  A null-onset first syllable with nucleus ㅣ is returned as is;
otherwise the J_INJECTIONS bidict maps ㅓ to ㅕ and ㅔ to ㅖ after an
empty coda and back after a non-empty (or undetermined) coda, and the
ordinary allomorph of the particle (form1 = 이, form2 = empty) is
prefixed. -/
def Ida_allomorph (coda : Coda) (form : List Nat) : Option (List Nat) :=
  match strip_i form with
  | [] => none
  | s0 :: rest =>
    match split_phonemes s0 with
    | none => none
    | some (o, v, f) =>
      if o = 0x3147 then
        if v = 0x3163 then some (s0 :: rest)
        else
          let mapped : Option Nat :=
            if coda = some none ∧ (v = 0x3153 ∨ v = 0x3154) then
              some (if v = 0x3153 then 0x3155 else 0x3156)
            else if coda ≠ some none ∧ (v = 0x3155 ∨ v = 0x3156) then
              some (if v = 0x3155 then 0x3153 else 0x3154)
            else none
          match mapped with
          | some v2 =>
              match join_phonemes 0x3147 v2 f with
              | some c =>
                  some (Particle.allomorph ⟨str "이", []⟩ coda ++ c :: rest)
              | none => none
          | none => some (Particle.allomorph ⟨str "이", []⟩ coda ++ s0 :: rest)
      else some (Particle.allomorph ⟨str "이", []⟩ coda ++ s0 :: rest)

/-- Ida.__call__, i.e. Particle.__call__ of particles.py dispatching to
Ida.allomorph. -/
def Ida_call (w form : List Nat) : Except Unit (Option (List Nat)) :=
  (inferCoda w).map (fun c => Ida_allomorph c form)

theorem split_phonemes_eq_getD {l o v : Nat} {f : Option Nat}
    (h : split_phonemes l = some (o, v, f)) (hH : is_hangul l = true) :
    f = FINALS.getD ((l - FIRST_HANGUL_OFFSET) % 28) none := by
  rw [split_phonemes, if_pos hH] at h
  simp only [Option.some.injEq, Prod.mk.injEq] at h
  exact h.2.2.symm

theorem FINALS_getD_mem (n : Nat) (hlt : n < FINALS.length) :
    FINALS.getD n none ∈ FINALS := by
  rw [List.getD_eq_getElem?_getD, List.getElem?_eq_getElem hlt]
  exact List.getElem_mem _

theorem split_phonemes_final_mem {l o v : Nat} {f : Option Nat}
    (h : split_phonemes l = some (o, v, f)) : f ∈ FINALS := by
  have hH := split_phonemes_hangul h
  rw [split_phonemes_eq_getD h hH]
  refine FINALS_getD_mem _ ?_
  have hlen : FINALS.length = 28 := by decide
  rw [hlen]
  exact Nat.mod_lt _ (by norm_num)

theorem join_phonemes_onset_null_total (v2 : Nat) (f : Option Nat)
    (hv : v2 ∈ VOWELS) (hf : f ∈ FINALS) :
    (join_phonemes 0x3147 v2 f).isSome = true := by
  have h1 : INITIALS.indexOf? 0x3147 = some 11 := by decide
  rcases h2 : VOWELS.indexOf? v2 with _ | iv
  · rw [List.indexOf?_eq_none_iff] at h2
    exact absurd (beq_self_eq_true v2) (h2 v2 hv)
  rcases h3 : FINALS.indexOf? f with _ | jf
  · rw [List.indexOf?_eq_none_iff] at h3
    exact absurd (beq_self_eq_true f) (h3 f hf)
  simp [join_phonemes, h1, h2, h3]

/-- C4: for the copula, when the stripped stem starts with a null-onset
syllable: an empty coda with first nucleus ㅓ or ㅔ glide-injects it to
ㅕ or ㅖ and drops the copula prefix; a non-empty coda with first nucleus
ㅕ or ㅖ reverses the injection to ㅓ or ㅔ and prefixes 이.  In
particular 피카츄 + 이에요 resolves to 예요 and 버터플 + 이에요 to
이에요. -/
theorem ida_copula_glide (form rest : List Nat) (s0 v : Nat)
    (f : Option Nat) (hstrip : strip_i form = s0 :: rest)
    (hsplit : split_phonemes s0 = some (0x3147, v, f)) :
    ((v = 0x3153 ∨ v = 0x3154) →
      ∃ c, join_phonemes 0x3147 (if v = 0x3153 then 0x3155 else 0x3156) f
          = some c ∧
        Ida_allomorph (some none) form = some (c :: rest)) ∧
    ((v = 0x3155 ∨ v = 0x3156) → ∀ j : Nat,
      ∃ c, join_phonemes 0x3147 (if v = 0x3155 then 0x3153 else 0x3154) f
          = some c ∧
        Ida_allomorph (some (some j)) form = some (str "이" ++ c :: rest)) ∧
    Ida_call (str "피카츄") (str "이에요") = Except.ok (some (str "예요")) ∧
    Ida_call (str "버터플") (str "이에요") = Except.ok (some (str "이에요"))
    := by
  have hfmem := split_phonemes_final_mem hsplit
  refine ⟨?_, ?_, by decide, by decide⟩
  · intro hv
    have hvmem : (if v = 0x3153 then 0x3155 else 0x3156 : Nat) ∈ VOWELS := by
      rcases hv with rfl | rfl <;> decide
    have hs := join_phonemes_onset_null_total _ f hvmem hfmem
    rcases hj : join_phonemes 0x3147
        (if v = 0x3153 then 0x3155 else 0x3156) f with _ | c
    · rw [hj] at hs; simp at hs
    · refine ⟨c, rfl, ?_⟩
      rcases hv with rfl | rfl
      · simp only [if_pos] at hj
        simp [Ida_allomorph, hstrip, hsplit, hj, Particle.allomorph]
      · norm_num at hj
        simp [Ida_allomorph, hstrip, hsplit, hj, Particle.allomorph]
  · intro hv j
    have hvmem : (if v = 0x3155 then 0x3153 else 0x3154 : Nat) ∈ VOWELS := by
      rcases hv with rfl | rfl <;> decide
    have hs := join_phonemes_onset_null_total _ f hvmem hfmem
    rcases hj : join_phonemes 0x3147
        (if v = 0x3155 then 0x3153 else 0x3154) f with _ | c
    · rw [hj] at hs; simp at hs
    · refine ⟨c, rfl, ?_⟩
      rcases hv with rfl | rfl
      · simp only [if_pos] at hj
        simp [Ida_allomorph, hstrip, hsplit, hj, Particle.allomorph]
      · norm_num at hj
        simp [Ida_allomorph, hstrip, hsplit, hj, Particle.allomorph]

/-- Witness for C4 at the stem 에요 after a vowel-final word: the nucleus
ㅔ of 에 glide-injects to ㅖ, giving 예요 with no copula prefix. -/
theorem ida_copula_glide_witness :
    ∃ c, join_phonemes 0x3147 0x3156 none = some c ∧
      Ida_allomorph (some none) (str "이에요") = some (c :: str "요") := by
  have h := (ida_copula_glide (str "이에요") (str "요") 0xC5D0 0x3154 none
    (by decide) (by decide)).1 (Or.inr rfl)
  simpa using h

/-- Modelled from the spec: the Particle construction of the registry,
`Particle(form1, form2=form1, final=False)` (spec 4.3).  The revision of
particles.py carrying the `final` flag and the match machinery is not under
src (src/__init__.py only calls it); `final = true` marks particles whose
match must consume the entire requested string. -/
structure RegParticle where
  form1 : List Nat
  form2 : List Nat
  final : Bool
deriving DecidableEq

/-- Tolerant forms of a registry particle, generated by the Tolerance
Generator of tolerance.py (spec 4.3). -/
def RegParticle.tolerances (p : RegParticle) : List (List Nat) :=
  generate_tolerances p.form1 p.form2

/-- Known forms of a registry particle: literal form1/form2 and all tolerant
renderings (spec 4.3). -/
def RegParticle.forms (p : RegParticle) : List (List Nat) :=
  p.form1 :: p.form2 :: p.tolerances

/-- Modelled from the spec: matching one known form against a requested
string (spec 4.3).  The form must be a prefix (the whole string when
`fin`), and a form ending in a coda-less Hangul syllable also matches the
same syllable carrying an extra coda, in which case the residual coda's
jamo is prepended to the remainder so it is not lost (e.g. 관 matched
against 과 yields remainder ㄴ).  Returns (consumed length, remainder). -/
def formMatch (fin : Bool) (f s : List Nat) : Option (Nat × List Nat) :=
  if f = [] then none
  else if (if fin then s == f else begins s f) then
    some (f.length, s.drop f.length)
  else
    match f.getLast? with
    | none => none
    | some lastc =>
      match split_phonemes lastc with
      | some (o, v, none) =>
          if begins s f.dropLast then
            match s[f.length - 1]? with
            | some sc =>
                match split_phonemes sc with
                | some (o2, v2, some cd) =>
                    if o2 = o ∧ v2 = v ∧ (fin → s.length = f.length) then
                      some (f.length, cd :: s.drop f.length)
                    else none
                | _ => none
            | none => none
          else none
      | _ => none

/-- Modelled from the spec: the best match over a list of known forms,
"longest form first" (spec 4.3), realized as a scan keeping the match that
consumes the most characters, earlier forms winning ties. -/
def bestMatch (fin : Bool) (forms : List (List Nat)) (s : List Nat) :
    Option (Nat × List Nat) :=
  forms.foldl
    (fun acc f =>
      match formMatch fin f s, acc with
      | some (c, r), none => some (c, r)
      | some (c, r), some (cb, rb) =>
          if cb < c then some (c, r) else some (cb, rb)
      | none, a => a)
    none

/-- A registry entry: a simple particle or the special instrumental
particle Euro. -/
inductive RegEntry where
  | simple (p : RegParticle)
  | euro
deriving DecidableEq

/-- Euro's matchable prefixes, from its PREFIX_PATTERN (으|\(으\))?로. -/
def euroForms : List (List Nat) := [str "으로", str "(으)로", str "로"]

/-- Modelled from the spec: a registry entry's match operation (spec 4.3,
4.5). -/
def RegEntry.tryMatch : RegEntry → List Nat → Option (Nat × List Nat)
  | .simple p, s => bestMatch p.final p.forms s
  | .euro, s => bestMatch false euroForms s

/-- Tolerant forms of a registry entry; Euro's are those of form1 = 으,
form2 = the empty string, namely the single form (으). -/
def RegEntry.tolerancesOf : RegEntry → List (List Nat)
  | .simple p => p.tolerances
  | .euro => generate_tolerances (str "으") []

/-- Modelled from the spec: the coda-conditioned base form an entry
contributes before the unconsumed remainder is appended (spec 4.3 rule /
4.6); an out-of-range tolerance style falls back to style 0.  Euro's base
recombines its liquid-aware prefix with the consumed 로. -/
def RegEntry.base : RegEntry → Nat → Coda → List Nat
  | .simple p, style, coda =>
      match coda with
      | none => p.tolerances.getD style (p.tolerances.getD 0 p.form1)
      | some (some _) => p.form1
      | some none => p.form2
  | .euro, _, coda =>
      (match coda with
       | none => paren (str "으")
       | some (some j) => if j ≠ 0x3139 then str "으" else []
       | some none => []) ++ str "로"

/-- The particle catalogue of src/smartformat_korean/__init__.py lines
22-52, in source order, with its final flags. -/
def REGISTRY : List RegEntry :=
  [.simple ⟨str "이", str "가", true⟩,
   .simple ⟨str "을", str "를", true⟩,
   .simple ⟨str "은", str "는", false⟩,
   .simple ⟨str "과", str "와", false⟩,
   .simple ⟨str "아", str "야", true⟩,
   .simple ⟨str "이여", str "여", true⟩,
   .simple ⟨str "이시여", str "시여", true⟩,
   .simple ⟨str "의", str "의", true⟩,
   .simple ⟨str "도", str "도", true⟩,
   .simple ⟨str "만", str "만", false⟩,
   .simple ⟨str "에", str "에", false⟩,
   .simple ⟨str "께", str "께", false⟩,
   .simple ⟨str "뿐", str "뿐", false⟩,
   .simple ⟨str "하", str "하", false⟩,
   .simple ⟨str "보다", str "보다", false⟩,
   .simple ⟨str "밖에", str "밖에", false⟩,
   .simple ⟨str "같이", str "같이", false⟩,
   .simple ⟨str "부터", str "부터", false⟩,
   .simple ⟨str "까지", str "까지", false⟩,
   .simple ⟨str "마저", str "마저", false⟩,
   .simple ⟨str "조차", str "조차", false⟩,
   .simple ⟨str "마냥", str "마냥", false⟩,
   .simple ⟨str "처럼", str "처럼", false⟩,
   .simple ⟨str "커녕", str "커녕", false⟩,
   .euro]

/-- Modelled from the spec: the registry lookup scan, preferring the match
that consumes the most characters, earlier entries winning ties
(spec 4.5). -/
def lookupScan (s : List Nat) :
    List RegEntry → Nat → Option (Nat × Nat × List Nat) →
      Option (Nat × Nat × List Nat)
  | [], _, acc => acc
  | e :: es, i, acc =>
      lookupScan s es (i + 1)
        (match e.tryMatch s, acc with
         | some (c, r), none => some (i, c, r)
         | some (c, r), some (j, cb, rb) =>
             if cb < c then some (i, c, r) else some (j, cb, rb)
         | none, a => a)

/-- lookup(requestedFormString) of the registry (spec 4.5): the index of the
selected particle, the consumed length and the remainder. -/
def lookup (s : List Nat) : Option (Nat × Nat × List Nat) :=
  lookupScan s REGISTRY 0 none

/-- resolve (spec 4.6) at a known coda: the looked-up entry's base form with
the unconsumed remainder appended; when no particle matches, the copula
fallback handles the whole string. -/
def resolveCore (coda : Coda) (style : Nat) (s : List Nat) :
    Option (List Nat) :=
  match lookup s with
  | some (i, _, r) => some ((REGISTRY.getD i .euro).base style coda ++ r)
  | none => Ida_allomorph coda s

/-- resolve(word, requestedForm) at the default tolerance style. -/
def ko_resolve (w s : List Nat) : Except Unit (Option (List Nat)) :=
  (inferCoda w).map (fun c => resolveCore c 0 s)

theorem lookupScan_nil (s : List Nat) (i : Nat)
    (acc : Option (Nat × Nat × List Nat)) : lookupScan s [] i acc = acc :=
  rfl

theorem lookupScan_cons (s : List Nat) (e : RegEntry) (es : List RegEntry)
    (i : Nat) (acc : Option (Nat × Nat × List Nat)) :
    lookupScan s (e :: es) i acc =
      lookupScan s es (i + 1)
        (match e.tryMatch s, acc with
         | some (c, r), none => some (i, c, r)
         | some (c, r), some (j, cb, rb) =>
             if cb < c then some (i, c, r) else some (j, cb, rb)
         | none, a => a) := rfl

theorem lookupScan_max (s : List Nat) (es : List RegEntry) :
    ∀ (i : Nat) (acc : Option (Nat × Nat × List Nat)) (j c : Nat)
      (r : List Nat), lookupScan s es i acc = some (j, c, r) →
      (∀ e ∈ es, ∀ c2 r2, e.tryMatch s = some (c2, r2) → c2 ≤ c) ∧
      (∀ j0 c0 r0, acc = some (j0, c0, r0) → c0 ≤ c) := by
  induction es with
  | nil =>
      intro i acc j c r h
      refine ⟨by simp, ?_⟩
      intro j0 c0 r0 hacc
      rw [lookupScan_nil, hacc] at h
      cases h
      exact Nat.le_refl _
  | cons e es ih =>
      intro i acc j c r h
      rw [lookupScan_cons] at h
      rcases hm : e.tryMatch s with _ | ⟨cm, rm⟩ <;> rw [hm] at h
      · rcases hacc : acc with _ | ⟨⟨j0, c0, r0⟩⟩ <;> rw [hacc] at h <;>
          dsimp only at h
        · have := ih (i + 1) none j c r h
          exact ⟨fun e2 he2 c2 r2 hm2 => by
            rcases List.mem_cons.mp he2 with rfl | he2
            · rw [hm2] at hm; cases hm
            · exact this.1 e2 he2 c2 r2 hm2, by simp⟩
        · have := ih (i + 1) (some (j0, c0, r0)) j c r h
          refine ⟨fun e2 he2 c2 r2 hm2 => ?_, fun ja ca ra hacc2 => ?_⟩
          · rcases List.mem_cons.mp he2 with rfl | he2
            · rw [hm2] at hm; cases hm
            · exact this.1 e2 he2 c2 r2 hm2
          · cases hacc2
            exact this.2 _ _ _ rfl
      · rcases hacc : acc with _ | ⟨⟨j0, c0, r0⟩⟩ <;> rw [hacc] at h <;>
          dsimp only at h
        · have := ih (i + 1) (some (i, cm, rm)) j c r h
          refine ⟨fun e2 he2 c2 r2 hm2 => ?_, by simp⟩
          rcases List.mem_cons.mp he2 with rfl | he2
          · rw [hm2] at hm
            cases hm
            exact this.2 _ _ _ rfl
          · exact this.1 e2 he2 c2 r2 hm2
        · by_cases hlt : c0 < cm
          · rw [if_pos hlt] at h
            have := ih (i + 1) (some (i, cm, rm)) j c r h
            refine ⟨fun e2 he2 c2 r2 hm2 => ?_, fun ja ca ra hacc2 => ?_⟩
            · rcases List.mem_cons.mp he2 with rfl | he2
              · rw [hm2] at hm
                cases hm
                exact this.2 _ _ _ rfl
              · exact this.1 e2 he2 c2 r2 hm2
            · cases hacc2
              exact Nat.le_trans (Nat.le_of_lt hlt) (this.2 _ _ _ rfl)
          · rw [if_neg hlt] at h
            have := ih (i + 1) (some (j0, c0, r0)) j c r h
            refine ⟨fun e2 he2 c2 r2 hm2 => ?_, fun ja ca ra hacc2 => ?_⟩
            · rcases List.mem_cons.mp he2 with rfl | he2
              · rw [hm2] at hm
                cases hm
                exact Nat.le_trans (Nat.le_of_not_lt hlt)
                  (this.2 _ _ _ rfl)
              · exact this.1 e2 he2 c2 r2 hm2
            · cases hacc2
              exact this.2 _ _ _ rfl

theorem lookupScan_realizes (s : List Nat) (es : List RegEntry) :
    ∀ (i : Nat) (acc : Option (Nat × Nat × List Nat)) (j c : Nat)
      (r : List Nat), lookupScan s es i acc = some (j, c, r) →
      acc = some (j, c, r) ∨
        (i ≤ j ∧ ∃ e, es[j - i]? = some e ∧ e.tryMatch s = some (c, r)) := by
  induction es with
  | nil =>
      intro i acc j c r h
      rw [lookupScan_nil] at h
      exact Or.inl h
  | cons e es ih =>
      intro i acc j c r h
      rw [lookupScan_cons] at h
      have hshift : i + 1 ≤ j →
          (es[j - (i + 1)]? = (e :: es)[j - i]?) := by
        intro hij
        have : j - i = (j - (i + 1)) + 1 := by omega
        rw [this, List.getElem?_cons_succ]
      rcases hm : e.tryMatch s with _ | ⟨cm, rm⟩ <;> rw [hm] at h
      · rcases ih (i + 1) acc j c r h with hl | ⟨hij, e2, he2, hm2⟩
        · exact Or.inl hl
        · exact Or.inr ⟨by omega, e2, by rw [← hshift hij]; exact he2, hm2⟩
      · rcases hacc : acc with _ | ⟨⟨j0, c0, r0⟩⟩ <;> rw [hacc] at h <;>
          dsimp only at h
        · rcases ih (i + 1) (some (i, cm, rm)) j c r h with hl | hr
          · cases hl
            refine Or.inr ⟨Nat.le_refl _, e, ?_, hm⟩
            simp
          · rcases hr with ⟨hij, e2, he2, hm2⟩
            exact Or.inr ⟨by omega, e2, by rw [← hshift hij]; exact he2, hm2⟩
        · by_cases hlt : c0 < cm
          · rw [if_pos hlt] at h
            rcases ih (i + 1) (some (i, cm, rm)) j c r h with hl | hr
            · cases hl
              refine Or.inr ⟨Nat.le_refl _, e, ?_, hm⟩
              simp
            · rcases hr with ⟨hij, e2, he2, hm2⟩
              exact Or.inr ⟨by omega, e2, by rw [← hshift hij]; exact he2,
                hm2⟩
          · rw [if_neg hlt] at h
            rcases ih (i + 1) (some (j0, c0, r0)) j c r h with hl | hr
            · exact Or.inl hl
            · rcases hr with ⟨hij, e2, he2, hm2⟩
              exact Or.inr ⟨by omega, e2, by rw [← hshift hij]; exact he2,
                hm2⟩

/-- C5: when a requested form string is matched by registered particles,
the lookup selects a particle whose match is real and consumes at least as
many characters as any other particle's match (longest-match-wins), and
resolution appends the unconsumed remainder to the selected allomorph; in
particular resolving 그 친구 with 과는 yields 와는 through the conjunctive
particle 과/와 with remainder 는. -/
theorem lookup_longest_match :
    (∀ s j c r, lookup s = some (j, c, r) →
      (∃ e, REGISTRY[j]? = some e ∧ e.tryMatch s = some (c, r)) ∧
      (∀ e ∈ REGISTRY, ∀ c2 r2, e.tryMatch s = some (c2, r2) → c2 ≤ c)) ∧
    (∀ s j c r coda style, lookup s = some (j, c, r) →
      resolveCore coda style s
        = some ((REGISTRY.getD j RegEntry.euro).base style coda ++ r)) ∧
    ko_resolve (str "그 친구") (str "과는") = Except.ok (some (str "와는"))
    := by
  refine ⟨?_, ?_, by decide⟩
  · intro s j c r h
    constructor
    · rcases lookupScan_realizes s REGISTRY 0 none j c r h with
        hl | ⟨hij, e, he, hm⟩
      · cases hl
      · exact ⟨e, by simpa using he, hm⟩
    · exact fun e he c2 r2 hm2 =>
        (lookupScan_max s REGISTRY 0 none j c r h).1 e he c2 r2 hm2
  · intro s j c r coda style h
    simp [resolveCore, h]

/-- Witness for C5 at the requested form 과는: the selected entry is the
conjunctive particle at index 3, consuming one character and leaving the
remainder 는. -/
theorem lookup_longest_match_witness :
    ∃ e, REGISTRY[3]? = some e ∧
      RegEntry.tryMatch e (str "과는") = some (1, str "는") :=
  (lookup_longest_match.1 (str "과는") 3 1 (str "는") (by decide)).1

/-- resolve_tolerance_style of src/smartformat_korean/__init__.py lines
65-72 (and tolerance_style of tolerance.py): an integer style is returned
unchanged; a string style is looked up in the particle registry, the
matched particle must have exactly 4 tolerant forms (ValueError otherwise),
and the style is the position of the string in that tolerance list
(list.index, ValueError when absent).  A failed lookup is the
m.lastgroup-on-None AttributeError.  All failures are Except.error. -/
def resolve_tolerance_style (style : Sum Nat (List Nat)) : Except Unit Nat :=
  match style with
  | .inl n => .ok n
  | .inr s =>
      match lookup s with
      | none => .error ()
      | some (i, _, _) =>
          let ts := (REGISTRY.getD i RegEntry.euro).tolerancesOf
          if ts.length = 4 then
            match ts.indexOf? s with
            | some k => .ok k
            | none => .error ()
          else .error ()

/-- Counterexample to C9: the style string 은 is matched by the topic
particle 은/는, whose tolerance list has exactly 4 forms, yet the resolver
fails, because 은 is a plain form and not itself one of the 4 tolerant
forms. -/
theorem tolerance_style_error_despite_four :
    lookup (str "은") = some (2, 1, []) ∧
    (RegEntry.tolerancesOf (REGISTRY.getD 2 RegEntry.euro)).length = 4 ∧
    resolve_tolerance_style (Sum.inr (str "은")) = Except.error () := by
  refine ⟨by decide, by decide, by decide⟩

/-- C9 (amended): the tolerance-style resolver returns an integer argument
unchanged; for a string argument it returns the position of the string in
the looked-up particle's 4-element tolerant-form list; and it fails exactly
when the string matches no particle, or the matched particle does not have
exactly 4 tolerant forms, or the string is not itself one of those
tolerant forms. -/
theorem tolerance_style_resolution :
    (∀ n : Nat, resolve_tolerance_style (Sum.inl n) = Except.ok n) ∧
    (∀ s i c r k, lookup s = some (i, c, r) →
      (REGISTRY.getD i RegEntry.euro).tolerancesOf.length = 4 →
      (REGISTRY.getD i RegEntry.euro).tolerancesOf.indexOf? s = some k →
      resolve_tolerance_style (Sum.inr s) = Except.ok k) ∧
    (∀ s, resolve_tolerance_style (Sum.inr s) = Except.error () ↔
      (lookup s = none ∨ ∃ i c r, lookup s = some (i, c, r) ∧
        ((REGISTRY.getD i RegEntry.euro).tolerancesOf.length ≠ 4 ∨
         (REGISTRY.getD i RegEntry.euro).tolerancesOf.indexOf? s = none)))
    := by
  refine ⟨fun n => rfl, ?_, ?_⟩
  · intro s i c r k hl h4 hidx
    simp only [List.getD_eq_getElem?_getD] at h4 hidx
    simp [resolve_tolerance_style, hl, h4, hidx]
  · intro s
    constructor
    · intro herr
      rcases hl : lookup s with _ | ⟨⟨i, c, r⟩⟩
      · exact Or.inl rfl
      · refine Or.inr ⟨i, c, r, rfl, ?_⟩
        by_cases h4 : (REGISTRY.getD i RegEntry.euro).tolerancesOf.length = 4
        · rcases hidx : (REGISTRY.getD i RegEntry.euro).tolerancesOf.indexOf?
              s with _ | k
          · exact Or.inr rfl
          · exfalso
            simp only [List.getD_eq_getElem?_getD] at h4 hidx
            simp [resolve_tolerance_style, hl, h4, hidx] at herr
        · exact Or.inl h4
    · intro hcase
      rcases hcase with hl | ⟨i, c, r, hl, hbad⟩
      · simp [resolve_tolerance_style, hl]
      · rcases hbad with h4 | hidx
        · simp only [List.getD_eq_getElem?_getD] at h4
          simp [resolve_tolerance_style, hl, h4]
        · by_cases h4 : (REGISTRY.getD i RegEntry.euro).tolerancesOf.length
              = 4
          · simp only [List.getD_eq_getElem?_getD] at h4 hidx
            simp [resolve_tolerance_style, hl, h4, hidx]
          · simp only [List.getD_eq_getElem?_getD] at h4
            simp [resolve_tolerance_style, hl, h4]

/-- Witness for C9's amended success case: the tolerant style string
(은)는 resolves to style index 1. -/
theorem tolerance_style_resolution_witness :
    resolve_tolerance_style (Sum.inr (str "(은)는")) = Except.ok 1 :=
  tolerance_style_resolution.2.1 (str "(은)는") 2 4 [] 1
    (by decide) (by decide) (by decide)
